import Mathlib

/-!
Verification of the streaming SSE translation engine and the per-client rate
limiter of the monica-proxy repository.

The embedding follows the Go source:

* `processSSEStream` (internal/service/image_service.go, third file, lines
  225-283) reads a byte stream line by line (`bufio.Reader.ReadBytes('\n')`),
  skips lines without the `"data: "` marker, strips the marker and the trailing
  newline, skips empty payloads, stops successfully on the `[DONE]` sentinel,
  decodes every other payload as JSON into an `SSEData` and hands it to a
  handler.  JSON decoding is third-party code (`sonic.Unmarshal`), so it is a
  parameter `decode : List Char → Option SSEData` here; a `none` result models
  a decode failure.  The byte source is a pure `List Char`; `readLines` models
  the sequence of successful `ReadBytes('\n')` results (a trailing chunk
  without a newline is returned by `ReadBytes` together with `io.EOF`, and the
  Go loop returns `nil` at once without processing those bytes, so `readLines`
  yields only newline-terminated lines).  The `select` on `ctx.Done()` at the
  top of every loop iteration is modelled by the `cancelled : Nat → Bool`
  parameter, queried once per iteration; when it is set the Go code returns
  `p.ctx.Err()`, modelled by `ProcError.canceled`.

* `CollectMonicaSSEToCompletion` (lines 286-342) folds the events into one
  completion; the random 29-character id and `time.Now()` are the `chatId`
  and `created` parameters.

* `StreamMonicaSSEToClient` (lines 344-499) emits OpenAI-style stream chunks;
  the random ids and the timestamp are the fields of `Session`.  The sink is
  modelled as an append-only list of `OutFrame`s (buffered writes to an ideal
  writer; the ticker goroutine only flushes the transport and emits nothing).

* `RateLimiter` (middleware, src/unnamed/part_003) is modelled sequentially:
  `GetLimiter`, `cleanupInactiveClients`, `NewRateLimiter`.  A limiter value
  carries its configured rate and burst, its current token count (a fresh
  `rate.NewLimiter` starts with a full bucket) and a `uid` distinguishing
  instances.  Timestamps are `Nat`s.
-/

namespace Monica

/-- Constant `sseObject` from the source: the `object` field of every chunk. -/
def sseObject : String := "chat.completion.chunk"

/-- Constant `sseFinish` from the source: the terminal sentinel literal. -/
def sseFinish : String := "[DONE]"

/-- Constant `dataPrefix` in the source: the marker every meaningful SSE line
starts with. -/
def dataMark : String := "data: "

/-- `dataPrefixLen` in the source. -/
def dataMarkLen : Nat := dataMark.length

/-- The inline `Metadata` struct of `AgentStatus`. -/
structure AgentStatusMetadata where
  title : String
  reasoningDetail : String
deriving DecidableEq, Repr

/-- `AgentStatus` from the source (fields `uid`, `type`, `text`, `metadata`). -/
structure AgentStatus where
  uid : String
  type : String
  text : String
  metadata : AgentStatusMetadata
deriving DecidableEq, Repr

/-- `SSEData` from the source: one decoded backend event.  In Go the
`agent_status` field is a value struct whose zero value has `Type == ""`. -/
structure SSEData where
  text : String
  finished : Bool
  agentStatus : AgentStatus
deriving DecidableEq, Repr

/-- Result-or-error of the SSE processing loop.  `canceled` models
`p.ctx.Err()` (the loop-top `select` branch), `readError` a transport read
failure (never produced by a pure byte source), `decodeError` the wrapped
`sonic.Unmarshal` failure. -/
inductive ProcError where
  | canceled
  | readError
  | decodeError
deriving DecidableEq, Repr

/-- The successful results of `bufio.Reader.ReadBytes('\n')` on a byte list:
each returned line includes its terminating newline; a trailing chunk with no
newline is only ever returned together with `io.EOF`, on which the Go loop
returns `nil` immediately, so that chunk produces no line here. -/
def readLinesAux (acc : List Char) : List Char → List (List Char)
  | [] => []
  | c :: cs =>
    if c = '\n' then (acc ++ ['\n']) :: readLinesAux [] cs
    else readLinesAux (acc ++ [c]) cs

/-- All complete (newline-terminated) lines of a byte list, in order. -/
def readLines (s : List Char) : List (List Char) := readLinesAux [] s

/-- The body of `processSSEStream`, one iteration per `ReadBytes` call, over
the list of complete lines; `i` counts iterations so that `cancelled i` models
the `select` on `ctx.Done()` observed at the top of iteration `i`.  Mirrors
lines 225-283 of the source: prefix check, newline strip, empty-payload skip,
sentinel check, JSON decode, handler call. -/
def processLines {σ : Type} (cancelled : Nat → Bool) (decode : List Char → Option SSEData)
    (handler : σ → SSEData → Except ProcError σ) : Nat → σ → List (List Char) → Except ProcError σ
  | i, st, [] => if cancelled i then Except.error ProcError.canceled else Except.ok st
  | i, st, line :: rest =>
    if cancelled i then Except.error ProcError.canceled
    else if line.length < dataMarkLen ∨ ¬ dataMark.toList.isPrefixOf line then
      processLines cancelled decode handler (i + 1) st rest
    else
      let jsonStr := (line.drop dataMarkLen).dropLast
      if jsonStr.length = 0 then
        processLines cancelled decode handler (i + 1) st rest
      else if jsonStr = sseFinish.toList then
        Except.ok st
      else
        match decode jsonStr with
        | none => Except.error ProcError.decodeError
        | some d =>
          match handler st d with
          | Except.error e => Except.error e
          | Except.ok st2 => processLines cancelled decode handler (i + 1) st2 rest

/-- `processSSEStream` over a raw byte source. -/
def processSSEStream {σ : Type} (cancelled : Nat → Bool) (decode : List Char → Option SSEData)
    (handler : σ → SSEData → Except ProcError σ) (i : Nat) (st : σ) (src : List Char) :
    Except ProcError σ :=
  processLines cancelled decode handler i st (readLines src)

/-- A `context.Background()` cancellation signal: never fires.  Both
`CollectMonicaSSEToCompletion` and `StreamMonicaSSEToClient` construct their
processor with `ctx := context.Background()`. -/
def noCancel : Nat → Bool := fun _ => false

/-- A cancellation signal that has already fired when the loop is entered. -/
def cancelAll : Nat → Bool := fun _ => true

/-- `openai.Usage` (the three token counters). -/
structure Usage where
  promptTokens : Nat
  completionTokens : Nat
  totalTokens : Nat
deriving DecidableEq, Repr

/-- `openai.ChatCompletionMessage` (the fields the collector sets). -/
structure ChatCompletionMessage where
  role : String
  content : String
deriving DecidableEq, Repr

/-- `openai.ChatCompletionChoice` (the fields the collector sets). -/
structure ChatCompletionChoice where
  index : Nat
  message : ChatCompletionMessage
  finishReason : String
deriving DecidableEq, Repr

/-- `openai.ChatCompletionResponse` (the fields the collector sets). -/
structure ChatCompletionResponse where
  id : String
  object : String
  created : Int
  model : String
  choices : List ChatCompletionChoice
  usage : Usage
deriving DecidableEq, Repr

/-- The collector's per-event handler (lines 303-311): events whose
`agent_status.type` is non-empty are skipped, every other event's `text` is
appended to the accumulated content. -/
def collectStep (acc : String) (d : SSEData) : String :=
  if d.agentStatus.type ≠ "" then acc else acc ++ d.text

/-- `CollectMonicaSSEToCompletion` (lines 286-342).  `chatId` models the random
29-character id, `created` models `time.Now().Unix()`. -/
def CollectMonicaSSEToCompletion (model chatId : String) (created : Int)
    (decode : List Char → Option SSEData) (src : List Char) :
    Except ProcError ChatCompletionResponse :=
  match processSSEStream noCancel decode (fun acc d => Except.ok (collectStep acc d)) 0 "" src with
  | Except.error e => Except.error e
  | Except.ok content =>
    Except.ok
      { id := "chatcmpl-" ++ chatId
        object := "chat.completion"
        created := created
        model := model
        choices := [{ index := 0,
                      message := { role := "assistant", content := content },
                      finishReason := "stop" }]
        usage := { promptTokens := 0, completionTokens := 0, totalTokens := 0 } }

/-- `openai.ChatCompletionStreamChoiceDelta` (the fields the emitter sets). -/
structure StreamDelta where
  role : String
  content : String
deriving DecidableEq, Repr

/-- `types.ChatCompletionStreamChoice`.  `finishReason` is the string value of
`openai.FinishReason`: `"stop"` for `FinishReasonStop`, `"null"` for
`FinishReasonNull`. -/
structure ChatCompletionStreamChoice where
  index : Nat
  delta : StreamDelta
  finishReason : String
deriving DecidableEq, Repr

/-- `types.ChatCompletionStreamResponse` (internal/types/openai.go): note that
`system_fingerprint` has no `omitempty`, so its Go zero value is the empty
string when a branch does not set it. -/
structure ChatCompletionStreamResponse where
  id : String
  object : String
  created : Int
  model : String
  choices : List ChatCompletionStreamChoice
  systemFingerprint : String
deriving DecidableEq, Repr

/-- One unit written to the client sink: either a serialized chunk
(`"data: " ++ JSON ++ "\n\n"`) or the raw terminal sentinel frame
(`"data: [DONE]\n\n"`). -/
inductive OutFrame where
  | chunk (msg : ChatCompletionStreamResponse)
  | done
deriving DecidableEq, Repr

/-- The per-request state fixed at the start of `StreamMonicaSSEToClient`:
`chatId` and `fingerprint` model the two random strings, `now` models
`time.Now().Unix()`. -/
structure Session where
  model : String
  chatId : String
  now : Int
  fingerprint : String
deriving DecidableEq, Repr

/-- The chunk built by the `sseData.Finished` branch (lines 388-402): role
`assistant`, no content, finish reason `stop`, and no `SystemFingerprint`
assignment, so that field is the Go zero value `""`. -/
def terminalChunk (s : Session) : ChatCompletionStreamResponse :=
  { id := "chatcmpl-" ++ s.chatId
    object := sseObject
    created := s.now
    model := s.model
    choices := [{ index := 0,
                  delta := { role := "assistant", content := "" },
                  finishReason := "stop" }]
    systemFingerprint := "" }

/-- The chunk built by the three non-terminal branches (lines 403-462), which
differ only in the content string: role `assistant`, finish reason `null`,
session fingerprint. -/
def contentChunk (s : Session) (content : String) : ChatCompletionStreamResponse :=
  { id := "chatcmpl-" ++ s.chatId
    object := sseObject
    created := s.now
    model := s.model
    choices := [{ index := 0,
                  delta := { role := "assistant", content := content },
                  finishReason := "null" }]
    systemFingerprint := s.fingerprint }

/-- The frames appended and the new `thinkFlag` for one event, following the
`switch` of the emitter handler (lines 386-462) in its order: `Finished`
first (terminal chunk then raw `[DONE]`, lines 483-493); then
`Type == "thinking"` (set the flag, emit the opening marker as the whole
content); then `Type == "thinking_detail_stream"` (emit the reasoning detail,
flag untouched); otherwise prepend the closing marker when the flag is set and
clear it. -/
def emitStepOut (s : Session) (thinkFlag : Bool) (d : SSEData) : Bool × List OutFrame :=
  if d.finished then
    (thinkFlag, [OutFrame.chunk (terminalChunk s), OutFrame.done])
  else if d.agentStatus.type = "thinking" then
    (true, [OutFrame.chunk (contentChunk s "<think>")])
  else if d.agentStatus.type = "thinking_detail_stream" then
    (thinkFlag, [OutFrame.chunk (contentChunk s d.agentStatus.metadata.reasoningDetail)])
  else
    (false, [OutFrame.chunk (contentChunk s (if thinkFlag then "</think>" ++ d.text else d.text))])

/-- One emitter handler call: the produced frames are appended to the sink,
the flag is updated. -/
def emitStep (s : Session) (st : Bool × List OutFrame) (d : SSEData) : Bool × List OutFrame :=
  ((emitStepOut s st.1 d).1, st.2 ++ (emitStepOut s st.1 d).2)

/-- Folding the emitter handler over a list of already-decoded events. -/
def emitEvents (s : Session) (st : Bool × List OutFrame) (evs : List SSEData) :
    Bool × List OutFrame :=
  evs.foldl (emitStep s) st

/-- `StreamMonicaSSEToClient` (lines 344-499): the handler starts with
`thinkFlag = false` and an empty sink; on success the written frames are
returned, a processing error is surfaced to the caller. -/
def StreamMonicaSSEToClient (s : Session) (decode : List Char → Option SSEData)
    (src : List Char) : Except ProcError (List OutFrame) :=
  match processSSEStream noCancel decode (fun st d => Except.ok (emitStep s st d)) 0 (false, ([] : List OutFrame)) src with
  | Except.error e => Except.error e
  | Except.ok st => Except.ok st.2

/-- A `rate.Limiter` as far as this component observes it: its configured
limit and burst, its current token count (`rate.NewLimiter` starts with a full
bucket of `burst` tokens) and a `uid` distinguishing limiter instances. -/
structure Limiter where
  limit : Nat
  burst : Nat
  tokens : Nat
  uid : Nat
deriving DecidableEq, Repr

/-- `clientEntry` from the source. -/
structure ClientEntry where
  limiter : Limiter
  lastSeen : Nat
deriving DecidableEq, Repr

/-- The mutable state of `RateLimiter`: the client map (an association list,
insertion-ordered like the sequence of map inserts), the configured rate and
burst, and the next fresh instance `uid` (a model artifact for identity). -/
structure RateLimiterSt where
  clients : List (String × ClientEntry)
  rate : Nat
  burst : Nat
  nextUID : Nat
deriving DecidableEq, Repr

/-- `NewRateLimiter(rps)`: empty map, `rate = rps`, `burst = rps`. -/
def NewRateLimiter (rps : Nat) : RateLimiterSt :=
  { clients := [], rate := rps, burst := rps, nextUID := 0 }

/-- Map lookup `rl.clients[clientIP]`. -/
def lookupClient (clients : List (String × ClientEntry)) (k : String) : Option ClientEntry :=
  match clients.find? (fun e => e.1 == k) with
  | some e => some e.2
  | none => none

/-- The in-place `entry.lastSeen = time.Now()` refresh of the entry for `k`. -/
def refreshClient (clients : List (String × ClientEntry)) (k : String) (now : Nat) :
    List (String × ClientEntry) :=
  clients.map (fun e => if e.1 == k then (e.1, { e.2 with lastSeen := now }) else e)

/-- `GetLimiter` (part_003 lines 49-78): on a hit refresh `lastSeen` and return
the stored limiter; on a miss create a limiter with the registry's rate and
burst (full bucket) and insert it.  The double-checked locking collapses to
one lookup in this sequential model. -/
def GetLimiter (rl : RateLimiterSt) (clientIP : String) (now : Nat) :
    RateLimiterSt × Limiter :=
  match lookupClient rl.clients clientIP with
  | some entry =>
    ({ rl with clients := refreshClient rl.clients clientIP now }, entry.limiter)
  | none =>
    let limiter : Limiter :=
      { limit := rl.rate, burst := rl.burst, tokens := rl.burst, uid := rl.nextUID }
    ({ rl with
        clients := rl.clients ++ [(clientIP, { limiter := limiter, lastSeen := now })]
        nextUID := rl.nextUID + 1 },
      limiter)

/-- The 10-minute inactivity threshold of `cleanupInactiveClients`, in
seconds. -/
def inactivityThreshold : Nat := 600

/-- `cleanupInactiveClients` (part_003 lines 96-108): delete every entry with
`now.Sub(entry.lastSeen) > threshold`. -/
def cleanupInactiveClients (rl : RateLimiterSt) (now : Nat) : RateLimiterSt :=
  { rl with clients := rl.clients.filter (fun e => !(decide (now - e.2.lastSeen > inactivityThreshold))) }

/-- Shorthand for a backend event with no agent status. -/
def evText (t : String) : SSEData :=
  { text := t, finished := false,
    agentStatus := { uid := "", type := "", text := "",
                     metadata := { title := "", reasoningDetail := "" } } }

/-- Shorthand for the stream-terminal event `{"finished":true}`. -/
def evFinished : SSEData :=
  { text := "", finished := true,
    agentStatus := { uid := "", type := "", text := "",
                     metadata := { title := "", reasoningDetail := "" } } }

/-- Shorthand for a `kind="thinking"` agent-status event. -/
def evThinking : SSEData :=
  { text := "", finished := false,
    agentStatus := { uid := "", type := "thinking", text := "",
                     metadata := { title := "", reasoningDetail := "" } } }

/-- Shorthand for a `kind="thinking_detail_stream"` agent-status event. -/
def evDetail (t : String) : SSEData :=
  { text := "", finished := false,
    agentStatus := { uid := "", type := "thinking_detail_stream", text := "",
                     metadata := { title := "", reasoningDetail := t } } }

/-- A concrete decoder used in witnesses and counterexamples: four known
payloads decode, everything else fails. -/
def decodeX : List Char → Option SSEData := fun p =>
  if p = "X".toList then some (evText "x")
  else if p = "F".toList then some evFinished
  else if p = "T".toList then some evThinking
  else if p = "D".toList then some (evDetail "deep")
  else none

/-- A concrete session used in witnesses and counterexamples. -/
def sessA : Session := { model := "gpt-4o", chatId := "id123", now := 17, fingerprint := "fp" }

/-- One backend line carrying payload `p`. -/
def dataLine (p : List Char) : List Char := dataMark.toList ++ p ++ ['\n']

/-- The byte stream consisting of the given payload lines. -/
def streamOf (ps : List (List Char)) : List Char := (ps.map dataLine).flatten

/-- A well-formed backend byte stream: the payload lines followed by the
terminal sentinel line. -/
def encodeStream (ps : List (List Char)) : List Char :=
  streamOf ps ++ dataLine sseFinish.toList

/-- A payload that is transported intact on one backend line: non-empty, free
of newlines, and not the sentinel literal. -/
def goodPayload (p : List Char) : Prop :=
  p ≠ [] ∧ '\n' ∉ p ∧ p ≠ sseFinish.toList

instance (p : List Char) : Decidable (goodPayload p) := by
  unfold goodPayload
  infer_instance

theorem readLinesAux_no_newline (l : List Char) : ∀ acc, '\n' ∉ l → readLinesAux acc l = [] := by
  induction l with
  | nil => intro acc _; rfl
  | cons c cs ih =>
    intro acc h
    have hc : ¬ c = '\n' := by
      intro hc; exact h (hc ▸ List.mem_cons_self c cs)
    have hcs : '\n' ∉ cs := fun hm => h (List.mem_cons_of_mem c hm)
    simp only [readLinesAux, if_neg hc]
    exact ih _ hcs

theorem readLinesAux_line (l : List Char) : ∀ acc rest, '\n' ∉ l →
    readLinesAux acc (l ++ '\n' :: rest) = (acc ++ l ++ ['\n']) :: readLinesAux [] rest := by
  induction l with
  | nil => intro acc rest _; simp [readLinesAux]
  | cons c cs ih =>
    intro acc rest h
    have hc : ¬ c = '\n' := by
      intro hc; exact h (hc ▸ List.mem_cons_self c cs)
    have hcs : '\n' ∉ cs := fun hm => h (List.mem_cons_of_mem c hm)
    simp only [List.cons_append, List.append_eq, readLinesAux, if_neg hc]
    rw [ih _ _ hcs]
    simp

theorem readLines_dataLine (p : List Char) (rest : List Char) (h : '\n' ∉ p) :
    readLines (dataLine p ++ rest) = dataLine p :: readLines rest := by
  have hm : '\n' ∉ dataMark.toList ++ p := by
    intro hmem
    rcases List.mem_append.mp hmem with hmem | hmem
    · revert hmem; decide
    · exact h hmem
  have harr : dataLine p ++ rest = (dataMark.toList ++ p) ++ '\n' :: rest := by
    simp [dataLine]
  rw [readLines, harr, readLinesAux_line _ _ _ hm]
  simp [readLines, dataLine]

theorem readLines_streamOf (ps : List (List Char)) (tail : List Char)
    (h : ∀ p ∈ ps, '\n' ∉ p) :
    readLines (streamOf ps ++ tail) = ps.map dataLine ++ readLines tail := by
  induction ps with
  | nil => simp [streamOf]
  | cons p ps ih =>
    have hp : '\n' ∉ p := h p (List.mem_cons_self p ps)
    have hps : ∀ q ∈ ps, '\n' ∉ q := fun q hq => h q (List.mem_cons_of_mem p hq)
    have : streamOf (p :: ps) ++ tail = dataLine p ++ (streamOf ps ++ tail) := by
      simp [streamOf]
    rw [this, readLines_dataLine _ _ hp, ih hps]
    simp

theorem isPrefixOf_self_append (l t : List Char) : l.isPrefixOf (l ++ t) = true := by
  induction l with
  | nil => simp [List.isPrefixOf]
  | cons c cs ih => simp [List.isPrefixOf, ih]

/-- Payload-level characterization of one loop iteration on a well-delimited
`data: ` line: the payload is the bytes between the marker and the newline;
an empty payload is skipped, the sentinel ends the run successfully, anything
else is decoded and handled. -/
theorem processLines_cons_data {σ : Type} (decode : List Char → Option SSEData)
    (handler : σ → SSEData → Except ProcError σ) (i : Nat) (st : σ)
    (rest : List (List Char)) (p : List Char) :
    processLines noCancel decode handler i st (dataLine p :: rest) =
      if p.length = 0 then processLines noCancel decode handler (i + 1) st rest
      else if p = sseFinish.toList then Except.ok st
      else
        match decode p with
        | none => Except.error ProcError.decodeError
        | some d =>
          match handler st d with
          | Except.error e => Except.error e
          | Except.ok st2 => processLines noCancel decode handler (i + 1) st2 rest := by
  have h6 : dataMark.toList.length = 6 := by decide
  have h7 : dataMarkLen = 6 := by decide
  have hlen : ¬ (dataLine p).length < dataMarkLen := by
    simp only [dataLine, List.length_append, List.length_cons, List.length_nil, h6, h7]
    omega
  have hpre : dataMark.toList.isPrefixOf (dataLine p) = true := by
    rw [dataLine, List.append_assoc]
    exact isPrefixOf_self_append _ _
  have hdrop : ((dataLine p).drop dataMarkLen).dropLast = p := by
    have h1 : (dataLine p).drop dataMarkLen = p ++ ['\n'] := by
      rw [dataLine, List.append_assoc]
      have : dataMarkLen = dataMark.toList.length := rfl
      rw [this, List.drop_left]
    rw [h1]
    simp
  simp only [processLines, noCancel, Bool.false_eq_true, if_false]
  rw [if_neg (not_or.mpr ⟨hlen, not_not_intro hpre⟩)]
  simp only [hdrop]

theorem processLines_sentinel {σ : Type} (decode : List Char → Option SSEData)
    (handler : σ → SSEData → Except ProcError σ) (i : Nat) (st : σ) (rest : List (List Char)) :
    processLines noCancel decode handler i st (dataLine sseFinish.toList :: rest) =
      Except.ok st := by
  rw [processLines_cons_data]
  simp [sseFinish]

/-- The main bridge: processing the encoding of a list of (payload, event)
pairs followed by any remaining lines is processing the remaining lines after
folding the handler over the events, provided every payload is well formed and
decodes to its event and the handler is total. -/
theorem processLines_good {σ : Type} (decode : List Char → Option SSEData) (f : σ → SSEData → σ) :
    ∀ (pes : List (List Char × SSEData)) (i : Nat) (st : σ) (tail : List (List Char)),
      (∀ pd ∈ pes, goodPayload pd.1 ∧ decode pd.1 = some pd.2) →
      processLines noCancel decode (fun a d => Except.ok (f a d)) i st
          (pes.map (fun pd => dataLine pd.1) ++ tail) =
        processLines noCancel decode (fun a d => Except.ok (f a d)) (i + pes.length)
          (List.foldl f st (pes.map Prod.snd)) tail := by
  intro pes
  induction pes with
  | nil => intro i st tail _; simp
  | cons pd pes ih =>
    intro i st tail h
    obtain ⟨⟨hne, _, hsen⟩, hdec⟩ := h pd (List.mem_cons_self pd pes)
    have hrest := fun q hq => h q (List.mem_cons_of_mem pd hq)
    simp only [List.map_cons, List.cons_append]
    rw [processLines_cons_data]
    rw [if_neg (by simpa using hne), if_neg hsen, hdec]
    have hih := ih (i + 1) (f st pd.2) tail hrest
    have harith : i + 1 + pes.length = i + (pes.length + 1) := by omega
    rw [harith] at hih
    simpa using hih

theorem goodPairs_no_newline {decode : List Char → Option SSEData}
    {pes : List (List Char × SSEData)}
    (h : ∀ pd ∈ pes, goodPayload pd.1 ∧ decode pd.1 = some pd.2) :
    ∀ p ∈ pes.map Prod.fst, '\n' ∉ p := by
  intro p hp
  obtain ⟨pd, hpd, rfl⟩ := List.mem_map.mp hp
  exact (h pd hpd).1.2.1

/-- Processing a well-formed stream (payload lines then the sentinel line)
folds the handler over the decoded events and ends successfully. -/
theorem processSSEStream_encode {σ : Type} (decode : List Char → Option SSEData)
    (f : σ → SSEData → σ) (st : σ) (pes : List (List Char × SSEData))
    (hgood : ∀ pd ∈ pes, goodPayload pd.1 ∧ decode pd.1 = some pd.2) :
    processSSEStream noCancel decode (fun a d => Except.ok (f a d)) 0 st
        (encodeStream (pes.map Prod.fst)) =
      Except.ok (List.foldl f st (pes.map Prod.snd)) := by
  have hnl : '\n' ∉ sseFinish.toList := by decide
  rw [processSSEStream, encodeStream,
    readLines_streamOf _ _ (goodPairs_no_newline hgood)]
  have hsen : readLines (dataLine sseFinish.toList) = [dataLine sseFinish.toList] := by
    have := readLines_dataLine sseFinish.toList [] hnl
    simpa using this
  rw [hsen, List.map_map]
  simp only [Function.comp_def]
  rw [processLines_good decode f pes 0 st _ hgood]
  exact processLines_sentinel _ _ _ _ _

/-- Processing the payload lines followed by any trailing bytes that contain
no newline ends successfully at end-of-input, and the trailing bytes produce
no event at all. -/
theorem processSSEStream_partial {σ : Type} (decode : List Char → Option SSEData)
    (f : σ → SSEData → σ) (st : σ) (pes : List (List Char × SSEData)) (tail : List Char)
    (hgood : ∀ pd ∈ pes, goodPayload pd.1 ∧ decode pd.1 = some pd.2)
    (htail : '\n' ∉ tail) :
    processSSEStream noCancel decode (fun a d => Except.ok (f a d)) 0 st
        (streamOf (pes.map Prod.fst) ++ tail) =
      Except.ok (List.foldl f st (pes.map Prod.snd)) := by
  rw [processSSEStream, readLines_streamOf _ _ (goodPairs_no_newline hgood)]
  rw [readLines, readLinesAux_no_newline _ _ htail, List.map_map]
  simp only [Function.comp_def]
  rw [processLines_good decode f pes 0 st _ hgood]
  rfl

/-- One line of a stream prefix the parser consumes without ending the run:
either a line without the `data: ` marker (ignored outright) or a `data: `
line carrying payload `p` (ignored when empty, decoded otherwise). -/
inductive PreLine where
  | junk (l : List Char)
  | payload (p : List Char)
deriving DecidableEq, Repr

/-- The bytes of a prefix line before its terminating newline. -/
def coreOf : PreLine → List Char
  | PreLine.junk l => l
  | PreLine.payload p => dataMark.toList ++ p

/-- The full newline-terminated prefix line. -/
def lineOf (e : PreLine) : List Char := coreOf e ++ ['\n']

/-- The prefix lines after which the parser keeps running: an ignored line
(marker absent, no embedded newline) or a payload line whose payload is
newline-free and either empty (ignored) or a non-sentinel payload that
decodes successfully. -/
def goodPreLine (decode : List Char → Option SSEData) : PreLine → Prop
  | PreLine.junk l => '\n' ∉ l ∧ dataMark.toList.isPrefixOf (l ++ ['\n']) = false
  | PreLine.payload p =>
      '\n' ∉ p ∧ (p = [] ∨ (p ≠ sseFinish.toList ∧ (decode p).isSome = true))

instance (decode : List Char → Option SSEData) :
    ∀ e : PreLine, Decidable (goodPreLine decode e)
  | PreLine.junk _ => by unfold goodPreLine; infer_instance
  | PreLine.payload _ => by unfold goodPreLine; infer_instance

theorem readLines_cores (cores : List (List Char)) (rest : List Char)
    (h : ∀ c ∈ cores, '\n' ∉ c) :
    readLines ((cores.map (fun c => c ++ ['\n'])).flatten ++ rest) =
      cores.map (fun c => c ++ ['\n']) ++ readLines rest := by
  induction cores with
  | nil => simp
  | cons c cs ih =>
    have hc : '\n' ∉ c := h c (List.mem_cons_self c cs)
    have hcs : ∀ x ∈ cs, '\n' ∉ x := fun x hx => h x (List.mem_cons_of_mem c hx)
    have harr : ((c :: cs).map (fun c => c ++ ['\n'])).flatten ++ rest =
        c ++ '\n' :: ((cs.map (fun c => c ++ ['\n'])).flatten ++ rest) := by
      simp
    rw [harr, readLines, readLinesAux_line _ _ _ hc]
    rw [show readLinesAux [] ((cs.map (fun c => c ++ ['\n'])).flatten ++ rest) =
      readLines ((cs.map (fun c => c ++ ['\n'])).flatten ++ rest) from rfl]
    rw [ih hcs]
    simp

theorem goodPreLine_core_no_newline {decode : List Char → Option SSEData} {e : PreLine}
    (h : goodPreLine decode e) : '\n' ∉ coreOf e := by
  cases e with
  | junk l => exact h.1
  | payload p =>
    intro hm
    rcases List.mem_append.mp hm with hm | hm
    · revert hm; decide
    · exact h.1 hm

/-- Consuming any run of ignored or successfully-decoded prefix lines leaves
the parser running on the remaining lines from some iteration index and some
handler state. -/
theorem processLines_preLines {σ : Type} (decode : List Char → Option SSEData)
    (f : σ → SSEData → σ) :
    ∀ (pre : List PreLine) (i : Nat) (st : σ) (tail : List (List Char)),
      (∀ e ∈ pre, goodPreLine decode e) →
      ∃ (j : Nat) (st2 : σ),
        processLines noCancel decode (fun a d => Except.ok (f a d)) i st
            (pre.map lineOf ++ tail) =
          processLines noCancel decode (fun a d => Except.ok (f a d)) j st2 tail := by
  intro pre
  induction pre with
  | nil => intro i st tail _; exact ⟨i, st, rfl⟩
  | cons e pre ih =>
    intro i st tail h
    have he := h e (List.mem_cons_self e pre)
    have hrest := fun x hx => h x (List.mem_cons_of_mem e hx)
    cases e with
    | junk l =>
      obtain ⟨hnl, hpf⟩ := he
      obtain ⟨j, st2, heq⟩ := ih (i + 1) st tail hrest
      refine ⟨j, st2, ?_⟩
      simp only [List.map_cons, List.cons_append, lineOf, coreOf]
      rw [← heq]
      simp only [processLines, noCancel, Bool.false_eq_true, if_false]
      rw [if_pos (Or.inr (by simp only [hpf]; exact Bool.false_ne_true))]
    | payload p =>
      obtain ⟨hnl, hp⟩ := he
      have hline : lineOf (PreLine.payload p) = dataLine p := by
        simp [lineOf, coreOf, dataLine]
      by_cases hpe : p = []
      · subst hpe
        obtain ⟨j, st2, heq⟩ := ih (i + 1) st tail hrest
        refine ⟨j, st2, ?_⟩
        simp only [List.map_cons, List.cons_append, hline]
        rw [processLines_cons_data, if_pos (show ([] : List Char).length = 0 from rfl)]
        exact heq
      · have h2 : p ≠ sseFinish.toList ∧ (decode p).isSome = true := by
          rcases hp with rfl | h2
          · exact absurd rfl hpe
          · exact h2
        obtain ⟨d, hd⟩ := Option.isSome_iff_exists.mp h2.2
        obtain ⟨j, st2, heq⟩ := ih (i + 1) (f st d) tail hrest
        refine ⟨j, st2, ?_⟩
        simp only [List.map_cons, List.cons_append, hline]
        rw [processLines_cons_data]
        rw [if_neg (by simpa using hpe), if_neg h2.1, hd]
        exact heq

/-- Processing any prefix of ignored or successfully-decoded lines followed
by a line whose payload is well formed but fails to decode ends with a decode
error, whatever bytes follow. -/
theorem processSSEStream_badline_pre {σ : Type} (decode : List Char → Option SSEData)
    (f : σ → SSEData → σ) (st : σ) (pre : List PreLine) (bad tail : List Char)
    (hpre : ∀ e ∈ pre, goodPreLine decode e)
    (hbad : goodPayload bad) (hdec : decode bad = none) :
    processSSEStream noCancel decode (fun a d => Except.ok (f a d)) 0 st
        ((pre.map lineOf).flatten ++ (dataLine bad ++ tail)) =
      Except.error ProcError.decodeError := by
  obtain ⟨hne, hnl, hsen⟩ := hbad
  have hmap : pre.map lineOf = (pre.map coreOf).map (fun c => c ++ ['\n']) := by
    rw [List.map_map]
    rfl
  have hcores : ∀ c ∈ pre.map coreOf, '\n' ∉ c := by
    intro c hc
    obtain ⟨e, he, rfl⟩ := List.mem_map.mp hc
    exact goodPreLine_core_no_newline (hpre e he)
  rw [processSSEStream, hmap, readLines_cores _ _ hcores,
    readLines_dataLine _ _ hnl, ← hmap]
  obtain ⟨j, st2, heq⟩ :=
    processLines_preLines decode f pre 0 st (dataLine bad :: readLines tail) hpre
  rw [heq, processLines_cons_data]
  rw [if_neg (by simpa using hne), if_neg hsen, hdec]

theorem emitStep_pair (s : Session) (st : Bool × List OutFrame) (d : SSEData) :
    emitStep s st d = ((emitStepOut s st.1 d).1, st.2 ++ (emitStepOut s st.1 d).2) := rfl

theorem emitEvents_nil (s : Session) (st : Bool × List OutFrame) :
    emitEvents s st [] = st := rfl

theorem emitEvents_cons (s : Session) (st : Bool × List OutFrame) (d : SSEData)
    (evs : List SSEData) :
    emitEvents s st (d :: evs) = emitEvents s (emitStep s st d) evs := rfl

theorem emitEvents_append (s : Session) (st : Bool × List OutFrame)
    (l₁ l₂ : List SSEData) :
    emitEvents s st (l₁ ++ l₂) = emitEvents s (emitEvents s st l₁) l₂ :=
  List.foldl_append _ _ _ _

/-- The sink is append-only: the frames written while folding over `evs` do
not depend on what is already in the sink. -/
theorem emitEvents_out (s : Session) (evs : List SSEData) :
    ∀ (b : Bool) (out : List OutFrame),
      emitEvents s (b, out) evs =
        ((emitEvents s (b, []) evs).1, out ++ (emitEvents s (b, []) evs).2) := by
  induction evs with
  | nil => intro b out; simp [emitEvents_nil]
  | cons d ds ih =>
    intro b out
    rw [emitEvents_cons, emitEvents_cons, emitStep_pair, emitStep_pair]
    simp only []
    rw [ih ((emitStepOut s b d).1) (out ++ (emitStepOut s b d).2),
      ih ((emitStepOut s b d).1) ([] ++ (emitStepOut s b d).2)]
    simp [List.append_assoc]

/-- The event class handled by the `case sseData.AgentStatus.Type == "thinking"`
branch: not terminal, agent-status kind `thinking`. -/
def isThinkingEv (d : SSEData) : Bool :=
  !d.finished && d.agentStatus.type == "thinking"

/-- The event class handled by the `thinking_detail_stream` branch. -/
def isDetailEv (d : SSEData) : Bool :=
  !d.finished && d.agentStatus.type == "thinking_detail_stream"

/-- The event class handled by the `default` branch: an ordinary content
fragment (not terminal, not one of the two reasoning kinds). -/
def isOrdinaryEv (d : SSEData) : Bool :=
  !d.finished && d.agentStatus.type != "thinking" && d.agentStatus.type != "thinking_detail_stream"

theorem emitStepOut_finished (s : Session) (b : Bool) (d : SSEData) (h : d.finished = true) :
    emitStepOut s b d = (b, [OutFrame.chunk (terminalChunk s), OutFrame.done]) := by
  simp [emitStepOut, h]

theorem isThinkingEv_elim {d : SSEData} (h : isThinkingEv d = true) :
    d.finished = false ∧ d.agentStatus.type = "thinking" := by
  simpa [isThinkingEv] using h

theorem isDetailEv_elim {d : SSEData} (h : isDetailEv d = true) :
    d.finished = false ∧ d.agentStatus.type = "thinking_detail_stream" := by
  simpa [isDetailEv] using h

theorem isOrdinaryEv_elim {d : SSEData} (h : isOrdinaryEv d = true) :
    d.finished = false ∧ d.agentStatus.type ≠ "thinking" ∧
      d.agentStatus.type ≠ "thinking_detail_stream" := by
  simpa [isOrdinaryEv, and_assoc] using h

theorem emitStepOut_thinking (s : Session) (b : Bool) (d : SSEData)
    (h : isThinkingEv d = true) :
    emitStepOut s b d = (true, [OutFrame.chunk (contentChunk s "<think>")]) := by
  obtain ⟨hf, ht⟩ := isThinkingEv_elim h
  simp [emitStepOut, hf, ht]

theorem emitStepOut_detail (s : Session) (b : Bool) (d : SSEData)
    (h : isDetailEv d = true) :
    emitStepOut s b d =
      (b, [OutFrame.chunk (contentChunk s d.agentStatus.metadata.reasoningDetail)]) := by
  obtain ⟨hf, ht⟩ := isDetailEv_elim h
  simp [emitStepOut, hf, ht]

theorem emitStepOut_ordinary (s : Session) (b : Bool) (d : SSEData)
    (h : isOrdinaryEv d = true) :
    emitStepOut s b d =
      (false, [OutFrame.chunk (contentChunk s (if b then "</think>" ++ d.text else d.text))]) := by
  obtain ⟨hf, ht, hd⟩ := isOrdinaryEv_elim h
  simp [emitStepOut, hf, ht, hd]

/-- The complete characterization of the `thinkFlag` transition function: it
becomes `true` exactly on a thinking event, becomes `false` exactly on an
ordinary content fragment, and is untouched by everything else. -/
theorem emitStepOut_flag (s : Session) (b : Bool) (d : SSEData) :
    (emitStepOut s b d).1 =
      if isThinkingEv d then true else if isOrdinaryEv d then false else b := by
  by_cases hf : d.finished
  · simp [emitStepOut_finished s b d hf, isThinkingEv, isOrdinaryEv, hf]
  · have hf' : d.finished = false := by simpa using hf
    by_cases ht : d.agentStatus.type = "thinking"
    · rw [emitStepOut_thinking s b d (by simp [isThinkingEv, hf', ht])]
      simp [isThinkingEv, hf', ht]
    · by_cases hd : d.agentStatus.type = "thinking_detail_stream"
      · rw [emitStepOut_detail s b d (by simp [isDetailEv, hf', hd])]
        simp [isThinkingEv, isOrdinaryEv, hf', ht, hd]
      · rw [emitStepOut_ordinary s b d (by simp [isOrdinaryEv, hf', ht, hd])]
        simp [isThinkingEv, isOrdinaryEv, hf', ht, hd]

/-- While no ordinary content fragment arrives, an open reasoning flag stays
open. -/
theorem emitEvents_flag_true (s : Session) (evs : List SSEData)
    (h : ∀ e ∈ evs, isOrdinaryEv e = false) :
    ∀ out : List OutFrame, (emitEvents s (true, out) evs).1 = true := by
  induction evs with
  | nil => intro out; rfl
  | cons d ds ih =>
    intro out
    have hd : isOrdinaryEv d = false := h d (List.mem_cons_self d ds)
    have hds := fun e he => h e (List.mem_cons_of_mem d he)
    rw [emitEvents_cons, emitStep_pair]
    have hflag : (emitStepOut s true d).1 = true := by
      rw [emitStepOut_flag]
      by_cases ht : isThinkingEv d <;> simp [ht, hd]
    rw [hflag]
    exact ih hds _

/-- Every frame the emitter can ever write: the raw sentinel frame, the
terminal chunk, or a content chunk of the session. -/
def chunkShape (s : Session) (f : OutFrame) : Prop :=
  f = OutFrame.done ∨ f = OutFrame.chunk (terminalChunk s) ∨
    ∃ c, f = OutFrame.chunk (contentChunk s c)

theorem emitStepOut_shape (s : Session) (b : Bool) (d : SSEData) :
    ∀ f ∈ (emitStepOut s b d).2, chunkShape s f := by
  by_cases hf : d.finished
  · rw [emitStepOut_finished s b d hf]
    intro f hfm
    simp only [List.mem_cons, List.not_mem_nil, or_false] at hfm
    rcases hfm with rfl | rfl
    · exact Or.inr (Or.inl rfl)
    · exact Or.inl rfl
  · have hf' : d.finished = false := by simpa using hf
    by_cases ht : d.agentStatus.type = "thinking"
    · rw [emitStepOut_thinking s b d (by simp [isThinkingEv, hf', ht])]
      intro f hfm
      simp only [List.mem_singleton] at hfm
      subst hfm
      exact Or.inr (Or.inr ⟨_, rfl⟩)
    · by_cases hd : d.agentStatus.type = "thinking_detail_stream"
      · rw [emitStepOut_detail s b d (by simp [isDetailEv, hf', hd])]
        intro f hfm
        simp only [List.mem_singleton] at hfm
        subst hfm
        exact Or.inr (Or.inr ⟨_, rfl⟩)
      · rw [emitStepOut_ordinary s b d (by simp [isOrdinaryEv, hf', ht, hd])]
        intro f hfm
        simp only [List.mem_singleton] at hfm
        subst hfm
        exact Or.inr (Or.inr ⟨_, rfl⟩)

/-- Shape invariant carried through the whole processing loop for the emitter
handler: on success, every frame in the sink has `chunkShape`. -/
theorem processLines_emit_shape (s : Session) (decode : List Char → Option SSEData) :
    ∀ (lines : List (List Char)) (i : Nat) (st : Bool × List OutFrame),
      (∀ f ∈ st.2, chunkShape s f) →
      ∀ res, processLines noCancel decode (fun a d => Except.ok (emitStep s a d)) i st lines =
          Except.ok res →
        ∀ f ∈ res.2, chunkShape s f := by
  intro lines
  induction lines with
  | nil =>
    intro i st hst res hres
    simp only [processLines, noCancel, Bool.false_eq_true, if_false, Except.ok.injEq] at hres
    exact hres ▸ hst
  | cons line rest ih =>
    intro i st hst res hres
    simp only [processLines, noCancel, Bool.false_eq_true, if_false] at hres
    by_cases hg : line.length < dataMarkLen ∨ ¬ dataMark.toList.isPrefixOf line
    · rw [if_pos hg] at hres
      exact ih (i + 1) st hst res hres
    · rw [if_neg hg] at hres
      by_cases hz : ((line.drop dataMarkLen).dropLast).length = 0
      · rw [if_pos hz] at hres
        exact ih (i + 1) st hst res hres
      · rw [if_neg hz] at hres
        by_cases hsen : (line.drop dataMarkLen).dropLast = sseFinish.toList
        · rw [if_pos hsen] at hres
          injection hres with hres
          exact hres ▸ hst
        · rw [if_neg hsen] at hres
          cases hdec : decode ((line.drop dataMarkLen).dropLast) with
          | none => rw [hdec] at hres; exact absurd hres (by simp)
          | some d =>
            rw [hdec] at hres
            refine ih (i + 1) (emitStep s st d) ?_ res hres
            rw [emitStep_pair]
            intro f hf
            rcases List.mem_append.mp hf with hf | hf
            · exact hst f hf
            · exact emitStepOut_shape s st.1 d f hf

/-- The concatenation, in arrival order, of the `text` fields of exactly the
events whose agent-status kind is empty. -/
def collectTexts (evs : List SSEData) : String :=
  String.join ((evs.filter (fun d => d.agentStatus.type == "")).map SSEData.text)

theorem join_cons (a : String) (l : List String) :
    String.join (a :: l) = a ++ String.join l := by
  apply String.ext
  simp [String.join_eq]

theorem foldl_collectStep (evs : List SSEData) :
    ∀ acc, List.foldl collectStep acc evs = acc ++ collectTexts evs := by
  induction evs with
  | nil => intro acc; simp [collectTexts, String.join]
  | cons d ds ih =>
    intro acc
    rw [List.foldl_cons, ih]
    by_cases h : d.agentStatus.type = ""
    · simp only [collectStep, h, ne_eq, not_true_eq_false, if_false, collectTexts,
        List.filter_cons, h, beq_self_eq_true, if_pos, List.map_cons, join_cons]
      rw [String.append_assoc]
    · have hb : (d.agentStatus.type == "") = false := by simpa using h
      simp only [collectStep, if_pos h, collectTexts, List.filter_cons, hb,
        Bool.false_eq_true, if_false]

/-- The emitter on a well-formed stream: the sink ends up holding exactly the
frames of the event fold. -/
theorem StreamMonicaSSEToClient_encode (s : Session) (decode : List Char → Option SSEData)
    (pes : List (List Char × SSEData))
    (hgood : ∀ pd ∈ pes, goodPayload pd.1 ∧ decode pd.1 = some pd.2) :
    StreamMonicaSSEToClient s decode (encodeStream (pes.map Prod.fst)) =
      Except.ok (emitEvents s (false, []) (pes.map Prod.snd)).2 := by
  rw [StreamMonicaSSEToClient,
    processSSEStream_encode decode (emitStep s) (false, []) pes hgood]
  rfl

/-- The collector on a well-formed stream: the completion carries the filtered
concatenation and zero usage. -/
theorem CollectMonicaSSEToCompletion_encode (model chatId : String) (created : Int)
    (decode : List Char → Option SSEData) (pes : List (List Char × SSEData))
    (hgood : ∀ pd ∈ pes, goodPayload pd.1 ∧ decode pd.1 = some pd.2) :
    CollectMonicaSSEToCompletion model chatId created decode (encodeStream (pes.map Prod.fst)) =
      Except.ok
        { id := "chatcmpl-" ++ chatId
          object := "chat.completion"
          created := created
          model := model
          choices := [{ index := 0,
                        message := { role := "assistant",
                                     content := collectTexts (pes.map Prod.snd) },
                        finishReason := "stop" }]
          usage := { promptTokens := 0, completionTokens := 0, totalTokens := 0 } } := by
  rw [CollectMonicaSSEToCompletion,
    processSSEStream_encode decode collectStep "" pes hgood]
  rw [foldl_collectStep]
  have : ("" : String) ++ collectTexts (pes.map Prod.snd) = collectTexts (pes.map Prod.snd) := by
    simp
  rw [this]

/-- Whether a frame is the raw `data: [DONE]` sentinel frame. -/
def isDoneFrame : OutFrame → Bool
  | OutFrame.done => true
  | OutFrame.chunk _ => false

/-- Whether a frame is a terminal chunk (some choice finishes with reason
`stop`). -/
def isStopFrame : OutFrame → Bool
  | OutFrame.chunk m => m.choices.any (fun c => c.finishReason == "stop")
  | OutFrame.done => false

theorem isStopFrame_contentChunk (s : Session) (c : String) :
    isStopFrame (OutFrame.chunk (contentChunk s c)) = false := by
  have hns : (("null" : String) == "stop") = false := by decide
  simp [isStopFrame, contentChunk, hns]

/-- Events that are not stream-terminal produce exactly one content chunk. -/
theorem emitStepOut_not_finished (s : Session) (b : Bool) (d : SSEData)
    (h : d.finished = false) :
    ∃ c, (emitStepOut s b d).2 = [OutFrame.chunk (contentChunk s c)] := by
  by_cases ht : d.agentStatus.type = "thinking"
  · exact ⟨_, by rw [emitStepOut_thinking s b d (by simp [isThinkingEv, h, ht])]⟩
  · by_cases hd : d.agentStatus.type = "thinking_detail_stream"
    · exact ⟨_, by rw [emitStepOut_detail s b d (by simp [isDetailEv, h, hd])]⟩
    · exact ⟨_, by rw [emitStepOut_ordinary s b d (by simp [isOrdinaryEv, h, ht, hd])]⟩

/-- A run of non-terminal events emits no sentinel frame and no terminal
chunk. -/
theorem emitEvents_not_finished_frames (s : Session) (evs : List SSEData)
    (h : ∀ e ∈ evs, e.finished = false) :
    ∀ b : Bool, ∀ f ∈ (emitEvents s (b, []) evs).2,
      isDoneFrame f = false ∧ isStopFrame f = false := by
  induction evs with
  | nil => intro b f hf; simp [emitEvents_nil] at hf
  | cons d ds ih =>
    intro b f hf
    have hd : d.finished = false := h d (List.mem_cons_self d ds)
    have hds := fun e he => h e (List.mem_cons_of_mem d he)
    rw [emitEvents_cons, emitStep_pair,
      emitEvents_out s ds ((emitStepOut s b d).1) ([] ++ (emitStepOut s b d).2)] at hf
    simp only [List.nil_append] at hf
    rcases List.mem_append.mp hf with hf | hf
    · obtain ⟨c, hc⟩ := emitStepOut_not_finished s b d hd
      rw [hc] at hf
      simp only [List.mem_singleton] at hf
      subst hf
      exact ⟨rfl, isStopFrame_contentChunk s c⟩
    · exact ih hds _ f hf

theorem ev_class_not_ordinary {d : SSEData} (h : isOrdinaryEv d = false) :
    d.finished = true ∨ isThinkingEv d = true ∨ isDetailEv d = true := by
  by_cases hf : d.finished
  · exact Or.inl hf
  · have hf' : d.finished = false := by simpa using hf
    by_cases ht : d.agentStatus.type = "thinking"
    · exact Or.inr (Or.inl (by simp [isThinkingEv, hf', ht]))
    · by_cases hdd : d.agentStatus.type = "thinking_detail_stream"
      · exact Or.inr (Or.inr (by simp [isDetailEv, hf', hdd]))
      · exact absurd h (by simp [isOrdinaryEv, hf', ht, hdd])

/-- With no ordinary content fragment in the run, every emitted frame is a
sentinel frame, a terminal chunk, an opening-marker chunk, or a reasoning
detail chunk of one of the events — in particular no frame carries the
closing marker. -/
theorem emitEvents_no_ordinary_shape (s : Session) (evs : List SSEData)
    (h : ∀ e ∈ evs, isOrdinaryEv e = false) :
    ∀ b : Bool, ∀ f ∈ (emitEvents s (b, []) evs).2,
      f = OutFrame.done ∨ f = OutFrame.chunk (terminalChunk s) ∨
      f = OutFrame.chunk (contentChunk s "<think>") ∨
      ∃ e ∈ evs, f = OutFrame.chunk (contentChunk s e.agentStatus.metadata.reasoningDetail) := by
  induction evs with
  | nil => intro b f hf; simp [emitEvents_nil] at hf
  | cons d ds ih =>
    intro b f hf
    have hd : isOrdinaryEv d = false := h d (List.mem_cons_self d ds)
    have hds := fun e he => h e (List.mem_cons_of_mem d he)
    rw [emitEvents_cons, emitStep_pair,
      emitEvents_out s ds ((emitStepOut s b d).1) ([] ++ (emitStepOut s b d).2)] at hf
    simp only [List.nil_append] at hf
    rcases List.mem_append.mp hf with hf | hf
    · rcases ev_class_not_ordinary hd with hc | hc | hc
      · rw [emitStepOut_finished s b d hc] at hf
        simp only [List.mem_cons, List.not_mem_nil, or_false] at hf
        rcases hf with rfl | rfl
        · exact Or.inr (Or.inl rfl)
        · exact Or.inl rfl
      · rw [emitStepOut_thinking s b d hc] at hf
        simp only [List.mem_singleton] at hf
        subst hf
        exact Or.inr (Or.inr (Or.inl rfl))
      · rw [emitStepOut_detail s b d hc] at hf
        simp only [List.mem_singleton] at hf
        subst hf
        exact Or.inr (Or.inr (Or.inr ⟨d, List.mem_cons_self d ds, rfl⟩))
    · rcases ih hds _ f hf with hc | hc | hc | ⟨e, he, hc⟩
      · exact Or.inl hc
      · exact Or.inr (Or.inl hc)
      · exact Or.inr (Or.inr (Or.inl hc))
      · exact Or.inr (Or.inr (Or.inr ⟨e, List.mem_cons_of_mem d he, hc⟩))

theorem lookupClient_nil (k : String) : lookupClient [] k = none := rfl

theorem lookupClient_cons_pos (e : String × ClientEntry) (es : List (String × ClientEntry))
    (k : String) (h : (e.1 == k) = true) : lookupClient (e :: es) k = some e.2 := by
  unfold lookupClient
  rw [List.find?_cons_of_pos es (show (fun x => x.1 == k) e = true from h)]

theorem lookupClient_cons_neg (e : String × ClientEntry) (es : List (String × ClientEntry))
    (k : String) (h : (e.1 == k) = false) : lookupClient (e :: es) k = lookupClient es k := by
  unfold lookupClient
  rw [List.find?_cons_of_neg es (show ¬ (fun x => x.1 == k) e = true from by simp [h])]

theorem lookupClient_none_iff (clients : List (String × ClientEntry)) (k : String) :
    lookupClient clients k = none ↔ k ∉ clients.map Prod.fst := by
  induction clients with
  | nil => simp [lookupClient_nil]
  | cons e es ih =>
    by_cases h : (e.1 == k) = true
    · have hek : e.1 = k := by simpa using h
      rw [lookupClient_cons_pos e es k h]
      simp [hek]
    · have hb : (e.1 == k) = false := by simpa using h
      have hek : ¬ e.1 = k := by simpa using hb
      rw [lookupClient_cons_neg e es k hb, ih]
      simp only [List.map_cons, List.mem_cons]
      constructor
      · intro hk hor
        rcases hor with hor | hor
        · exact hek hor.symm
        · exact hk hor
      · intro hk hm
        exact hk (Or.inr hm)

theorem refreshClient_cons (e : String × ClientEntry) (es : List (String × ClientEntry))
    (k : String) (now : Nat) :
    refreshClient (e :: es) k now =
      (if e.1 == k then (e.1, { e.2 with lastSeen := now }) else e) :: refreshClient es k now := rfl

theorem refreshClient_keys (clients : List (String × ClientEntry)) (k : String) (now : Nat) :
    (refreshClient clients k now).map Prod.fst = clients.map Prod.fst := by
  induction clients with
  | nil => rfl
  | cons e es ih =>
    rw [refreshClient_cons]
    simp only [List.map_cons]
    rw [ih]
    by_cases h : (e.1 == k) = true <;> simp [h]

theorem lookupClient_refresh_self (clients : List (String × ClientEntry)) (k : String)
    (now : Nat) (entry : ClientEntry) (h : lookupClient clients k = some entry) :
    lookupClient (refreshClient clients k now) k = some { entry with lastSeen := now } := by
  induction clients with
  | nil => simp [lookupClient_nil] at h
  | cons e es ih =>
    rw [refreshClient_cons]
    by_cases hk : (e.1 == k) = true
    · have he : e.2 = entry := by
        rw [lookupClient_cons_pos e es k hk] at h
        exact Option.some.inj h
      rw [if_pos hk, lookupClient_cons_pos _ _ _ (by simpa using hk)]
      rw [he]
    · have hb : (e.1 == k) = false := by simpa using hk
      rw [lookupClient_cons_neg e es k hb] at h
      rw [if_neg (by simp [hb]), lookupClient_cons_neg _ _ _ hb]
      exact ih h

/-- C4: the claim says cancellation of the supplied signal always ends the
sequence successfully and is never surfaced as an error.  The code's own
comment on the read path states the same policy, but the `select` at the top
of the loop returns `p.ctx.Err()`, a non-nil error: with the signal already
fired, `processSSEStream` returns the cancellation as an error even on a
stream that would otherwise end successfully at the sentinel (second
conjunct). -/
theorem C4_cancel_returns_error :
    processSSEStream cancelAll decodeX
        (fun acc d => Except.ok (collectStep acc d)) 0 "" "data: [DONE]\n".toList =
      Except.error ProcError.canceled
    ∧ processSSEStream noCancel decodeX
        (fun acc d => Except.ok (collectStep acc d)) 0 "" "data: [DONE]\n".toList =
      Except.ok "" := by
  exact ⟨rfl, rfl⟩

/-- C5: per-line behaviour of the ingest parser.  A line that does not start
with the `"data: "` marker is skipped (no event, no termination); on a
marker line the payload is the remainder with the trailing newline stripped
(`dataLine p` carries payload `p`); an empty payload is skipped; a payload
equal to the sentinel literal ends the run with success, not an error. -/
theorem C5_line_handling {σ : Type} (decode : List Char → Option SSEData)
    (handler : σ → SSEData → Except ProcError σ) (i : Nat) (st : σ)
    (rest : List (List Char)) :
    (∀ line, dataMark.toList.isPrefixOf line = false →
        processLines noCancel decode handler i st (line :: rest) =
          processLines noCancel decode handler (i + 1) st rest)
    ∧ (∀ p, processLines noCancel decode handler i st (dataLine p :: rest) =
        if p.length = 0 then processLines noCancel decode handler (i + 1) st rest
        else if p = sseFinish.toList then Except.ok st
        else
          match decode p with
          | none => Except.error ProcError.decodeError
          | some d =>
            match handler st d with
            | Except.error e => Except.error e
            | Except.ok st2 => processLines noCancel decode handler (i + 1) st2 rest) := by
  constructor
  · intro line hline
    simp only [processLines, noCancel, Bool.false_eq_true, if_false]
    rw [if_pos (Or.inr (by simp only [hline]; exact Bool.false_ne_true))]
  · intro p
    exact processLines_cons_data decode handler i st rest p

theorem C5_witness :
    dataMark.toList.isPrefixOf "event: ping\n".toList = false
    ∧ processLines noCancel decodeX (fun acc d => Except.ok (collectStep acc d)) 0 ""
        ["event: ping\n".toList] =
      processLines noCancel decodeX (fun acc d => Except.ok (collectStep acc d)) (0 + 1) "" []
    ∧ processLines noCancel decodeX (fun acc d => Except.ok (collectStep acc d)) 0 ""
        [dataLine sseFinish.toList] = Except.ok "" := by
  refine ⟨by decide, ?_, ?_⟩
  · exact (C5_line_handling decodeX (fun acc d => Except.ok (collectStep acc d)) 0 "" []).1
      "event: ping\n".toList (by decide)
  · rw [(C5_line_handling decodeX (fun acc d => Except.ok (collectStep acc d)) 0 "" []).2
      sseFinish.toList]
    rfl

/-- C10: a byte source whose final line is not newline-terminated ends the
run successfully at end-of-input, and the trailing partial line contributes
no event — whatever its bytes are (in particular a complete-looking
`data: ` payload or a trailing `data: [DONE]` without newline, which is then
not treated specially: the run just ends at end-of-input). -/
theorem C10_trailing_partial {σ : Type} (decode : List Char → Option SSEData)
    (f : σ → SSEData → σ) (st : σ) (pes : List (List Char × SSEData)) (tail : List Char)
    (hgood : ∀ pd ∈ pes, goodPayload pd.1 ∧ decode pd.1 = some pd.2)
    (htail : '\n' ∉ tail) :
    processSSEStream noCancel decode (fun a d => Except.ok (f a d)) 0 st
        (streamOf (pes.map Prod.fst) ++ tail) =
      Except.ok (List.foldl f st (pes.map Prod.snd)) :=
  processSSEStream_partial decode f st pes tail hgood htail

theorem C10_witness :
    processSSEStream noCancel decodeX (fun a d => Except.ok (collectStep a d)) 0 ""
        (streamOf ([("X".toList, evText "x")].map Prod.fst) ++ "data: [DONE]".toList) =
      Except.ok (List.foldl collectStep "" ([("X".toList, evText "x")].map Prod.snd)) :=
  C10_trailing_partial decodeX collectStep "" [("X".toList, evText "x")]
    "data: [DONE]".toList (by decide) (by decide)

/-- C3: on a well-formed backend stream the collector returns a completion
whose message content is the concatenation, in arrival order, of the `text`
fields of exactly the events with empty agent-status kind (`collectTexts`
filters on `agentStatus.type == ""`), and whose usage counters are all
zero. -/
theorem C3_collector_aggregate (model chatId : String) (created : Int)
    (decode : List Char → Option SSEData) (pes : List (List Char × SSEData))
    (hgood : ∀ pd ∈ pes, goodPayload pd.1 ∧ decode pd.1 = some pd.2) :
    CollectMonicaSSEToCompletion model chatId created decode
        (encodeStream (pes.map Prod.fst)) =
      Except.ok
        { id := "chatcmpl-" ++ chatId
          object := "chat.completion"
          created := created
          model := model
          choices := [{ index := 0,
                        message := { role := "assistant",
                                     content := collectTexts (pes.map Prod.snd) },
                        finishReason := "stop" }]
          usage := { promptTokens := 0, completionTokens := 0, totalTokens := 0 } } :=
  CollectMonicaSSEToCompletion_encode model chatId created decode pes hgood

theorem C3_witness :
    CollectMonicaSSEToCompletion "gpt-4o" "id123" 17 decodeX
        (encodeStream ([("X".toList, evText "x"), ("T".toList, evThinking),
          ("D".toList, evDetail "deep"), ("X".toList, evText "x")].map Prod.fst)) =
      Except.ok
        { id := "chatcmpl-" ++ "id123"
          object := "chat.completion"
          created := 17
          model := "gpt-4o"
          choices := [{ index := 0,
                        message := { role := "assistant",
                                     content := collectTexts ([("X".toList, evText "x"),
                                       ("T".toList, evThinking), ("D".toList, evDetail "deep"),
                                       ("X".toList, evText "x")].map Prod.snd) },
                        finishReason := "stop" }]
          usage := { promptTokens := 0, completionTokens := 0, totalTokens := 0 } } :=
  C3_collector_aggregate "gpt-4o" "id123" 17 decodeX
    [("X".toList, evText "x"), ("T".toList, evThinking), ("D".toList, evDetail "deep"),
      ("X".toList, evText "x")] (by decide)

/-- The frames written after the first raw `[DONE]` frame. -/
def afterDone : List OutFrame → List OutFrame
  | [] => []
  | OutFrame.done :: rest => rest
  | OutFrame.chunk _ :: rest => afterDone rest

/-- C1 counterexample: the handler returns `nil` after writing the terminal
frame and the raw `[DONE]` frame, so the loop keeps translating.  On the
well-formed stream `data: F` (finished), `data: X` (text "x"), `data: [DONE]`
the emitter writes a further content frame after the `[DONE]` frame, refuting
"emits zero frames after that, ending translation successfully regardless of
further input after the finished event". -/
theorem C1_counterexample :
    StreamMonicaSSEToClient sessA decodeX (encodeStream ["F".toList, "X".toList]) =
      Except.ok [OutFrame.chunk (terminalChunk sessA), OutFrame.done,
        OutFrame.chunk (contentChunk sessA "x")]
    ∧ afterDone [OutFrame.chunk (terminalChunk sessA), OutFrame.done,
        OutFrame.chunk (contentChunk sessA "x")] ≠ [] := by
  refine ⟨rfl, ?_⟩
  intro h
  simp [afterDone] at h

/-- C1 (amended): on a well-formed backend stream whose event sequence ends
with its only `finished` event, directly followed by the terminal sentinel,
the emitter writes the frames of the earlier events — none of which is a
sentinel frame or a terminal chunk — then exactly one terminal chunk
(role `assistant`, empty content, finish reason `stop`) and exactly one raw
`[DONE]` frame, and nothing after that. -/
theorem C1_terminal_frames (s : Session) (decode : List Char → Option SSEData)
    (pes : List (List Char × SSEData)) (evs : List SSEData) (d : SSEData)
    (hgood : ∀ pd ∈ pes, goodPayload pd.1 ∧ decode pd.1 = some pd.2)
    (hsplit : pes.map Prod.snd = evs ++ [d])
    (hfin : d.finished = true)
    (hpre : ∀ e ∈ evs, e.finished = false) :
    StreamMonicaSSEToClient s decode (encodeStream (pes.map Prod.fst)) =
      Except.ok ((emitEvents s (false, []) evs).2 ++
        [OutFrame.chunk (terminalChunk s), OutFrame.done])
    ∧ (∀ f ∈ (emitEvents s (false, []) evs).2, isDoneFrame f = false ∧ isStopFrame f = false)
    ∧ isStopFrame (OutFrame.chunk (terminalChunk s)) = true
    ∧ (terminalChunk s).choices =
        [{ index := 0, delta := { role := "assistant", content := "" },
           finishReason := "stop" }] := by
  refine ⟨?_, emitEvents_not_finished_frames s evs hpre false, ?_, rfl⟩
  · rw [StreamMonicaSSEToClient_encode s decode pes hgood, hsplit]
    have hstep : emitEvents s (false, []) (evs ++ [d]) =
        emitStep s (emitEvents s (false, []) evs) d := emitEvents_append s _ evs [d]
    rw [hstep, emitStep_pair, emitStepOut_finished s _ d hfin]
  · simp [isStopFrame, terminalChunk]

theorem C1_witness :
    StreamMonicaSSEToClient sessA decodeX
        (encodeStream ([("X".toList, evText "x"), ("F".toList, evFinished)].map Prod.fst)) =
      Except.ok ((emitEvents sessA (false, []) [evText "x"]).2 ++
        [OutFrame.chunk (terminalChunk sessA), OutFrame.done])
    ∧ (∀ f ∈ (emitEvents sessA (false, []) [evText "x"]).2,
        isDoneFrame f = false ∧ isStopFrame f = false)
    ∧ isStopFrame (OutFrame.chunk (terminalChunk sessA)) = true
    ∧ (terminalChunk sessA).choices =
        [{ index := 0, delta := { role := "assistant", content := "" },
           finishReason := "stop" }] :=
  C1_terminal_frames sessA decodeX [("X".toList, evText "x"), ("F".toList, evFinished)]
    [evText "x"] evFinished (by decide) (by decide) (by decide) (by decide)

/-- C2: reasoning-block invariant.  For a `thinking` event followed — after
any run of events that are neither thinking nor ordinary text — by an
ordinary-text event: the thinking event's frame has the opening marker as its
entire content, the in-between events contribute their own frames untouched,
and the closing marker appears exactly once, prefixed to the very next
ordinary-text frame (never as a separate frame); the flag ends `false`.
The second conjunct characterizes the `thinkFlag` transition completely:
false→true only on a thinking event, true→false only on an ordinary-text
event.  The third shows a further ordinary-text event emitted with the flag
already cleared carries its bare text, so the closing marker is never
duplicated. -/
theorem C2_reasoning_markers (s : Session) (b : Bool) (out : List OutFrame)
    (tEv xEv : SSEData) (mid : List SSEData)
    (ht : isThinkingEv tEv = true) (hx : isOrdinaryEv xEv = true)
    (hmid : ∀ e ∈ mid, isThinkingEv e = false ∧ isOrdinaryEv e = false) :
    emitEvents s (b, out) (tEv :: (mid ++ [xEv])) =
      (false, out ++ [OutFrame.chunk (contentChunk s "<think>")] ++
        (emitEvents s (true, []) mid).2 ++
        [OutFrame.chunk (contentChunk s ("</think>" ++ xEv.text))])
    ∧ (∀ (b2 : Bool) (d : SSEData), (emitStepOut s b2 d).1 =
        if isThinkingEv d then true else if isOrdinaryEv d then false else b2)
    ∧ (∀ y, isOrdinaryEv y = true →
        (emitStepOut s false y).2 = [OutFrame.chunk (contentChunk s y.text)]) := by
  refine ⟨?_, emitStepOut_flag s, ?_⟩
  · rw [emitEvents_cons, emitStep_pair, emitStepOut_thinking s b tEv ht]
    simp only []
    rw [emitEvents_append s _ mid [xEv]]
    rw [emitEvents_out s mid true (out ++ [OutFrame.chunk (contentChunk s "<think>")])]
    have hflag : (emitEvents s (true, ([] : List OutFrame)) mid).1 = true :=
      emitEvents_flag_true s mid (fun e he => (hmid e he).2) []
    have hsing : ∀ st : Bool × List OutFrame, emitEvents s st [xEv] = emitStep s st xEv :=
      fun st => rfl
    rw [hsing, emitStep_pair]
    simp only [hflag]
    rw [emitStepOut_ordinary s true xEv hx]
    simp [List.append_assoc]
  · intro y hy
    rw [emitStepOut_ordinary s false y hy]
    simp

theorem C2_witness :
    emitEvents sessA (false, []) (evThinking :: ([evDetail "deep"] ++ [evText "x"])) =
      (false, [] ++ [OutFrame.chunk (contentChunk sessA "<think>")] ++
        (emitEvents sessA (true, []) [evDetail "deep"]).2 ++
        [OutFrame.chunk (contentChunk sessA ("</think>" ++ (evText "x").text))])
    ∧ (∀ (b2 : Bool) (d : SSEData), (emitStepOut sessA b2 d).1 =
        if isThinkingEv d then true else if isOrdinaryEv d then false else b2)
    ∧ (∀ y, isOrdinaryEv y = true →
        (emitStepOut sessA false y).2 = [OutFrame.chunk (contentChunk sessA y.text)]) :=
  C2_reasoning_markers sessA false [] evThinking (evText "x") [evDetail "deep"]
    (by decide) (by decide) (by decide)

/-- C9 counterexample: because the loop keeps translating after
`finished = true` and the flag survives the terminal frame, an ordinary-text
event arriving after the finished event still receives the closing marker —
so "never emits the closing marker" fails for the event sequence
thinking, finished, text (a well-formed stream), whose output contains the
frame `</think>x` after the `[DONE]` frame. -/
theorem C9_counterexample :
    StreamMonicaSSEToClient sessA decodeX
        (encodeStream ["T".toList, "F".toList, "X".toList]) =
      Except.ok [OutFrame.chunk (contentChunk sessA "<think>"),
        OutFrame.chunk (terminalChunk sessA), OutFrame.done,
        OutFrame.chunk (contentChunk sessA ("</think>" ++ "x"))]
    ∧ OutFrame.chunk (contentChunk sessA ("</think>" ++ "x")) ∈
        [OutFrame.chunk (contentChunk sessA "<think>"),
          OutFrame.chunk (terminalChunk sessA), OutFrame.done,
          OutFrame.chunk (contentChunk sessA ("</think>" ++ "x"))] := by
  refine ⟨rfl, ?_⟩
  simp

/-- C9 (amended): when a `thinking` event is followed by a `finished` event
and no ordinary-text event occurs anywhere after the thinking event (neither
between it and the finished event nor after the finished event), the closing
marker is never emitted: the flag is still set (and simply discarded) when
the run ends, every frame after the opening marker is a sentinel frame, a
terminal chunk, another opening marker or a reasoning-detail chunk, and the
terminal chunk itself has empty content. -/
theorem C9_unclosed_reasoning (s : Session) (b : Bool) (out : List OutFrame)
    (tEv d : SSEData) (rest : List SSEData)
    (ht : isThinkingEv tEv = true)
    (_hd : d ∈ rest) (_hdf : d.finished = true)
    (hr : ∀ e ∈ rest, isOrdinaryEv e = false) :
    (emitEvents s (b, out) (tEv :: rest)).1 = true
    ∧ (emitEvents s (b, out) (tEv :: rest)).2 =
        out ++ [OutFrame.chunk (contentChunk s "<think>")] ++
          (emitEvents s (true, []) rest).2
    ∧ (∀ f ∈ (emitEvents s (true, []) rest).2,
        f = OutFrame.done ∨ f = OutFrame.chunk (terminalChunk s) ∨
        f = OutFrame.chunk (contentChunk s "<think>") ∨
        ∃ e ∈ rest, f = OutFrame.chunk (contentChunk s e.agentStatus.metadata.reasoningDetail))
    ∧ (terminalChunk s).choices =
        [{ index := 0, delta := { role := "assistant", content := "" },
           finishReason := "stop" }] := by
  refine ⟨?_, ?_, emitEvents_no_ordinary_shape s rest hr true, rfl⟩
  · rw [emitEvents_cons, emitStep_pair, emitStepOut_thinking s b tEv ht]
    simp only []
    exact emitEvents_flag_true s rest hr _
  · rw [emitEvents_cons, emitStep_pair, emitStepOut_thinking s b tEv ht]
    simp only []
    rw [emitEvents_out s rest true (out ++ [OutFrame.chunk (contentChunk s "<think>")])]

theorem C9_witness :
    (emitEvents sessA (false, []) (evThinking :: [evDetail "deep", evFinished])).1 = true
    ∧ (emitEvents sessA (false, []) (evThinking :: [evDetail "deep", evFinished])).2 =
        [] ++ [OutFrame.chunk (contentChunk sessA "<think>")] ++
          (emitEvents sessA (true, []) [evDetail "deep", evFinished]).2
    ∧ (∀ f ∈ (emitEvents sessA (true, []) [evDetail "deep", evFinished]).2,
        f = OutFrame.done ∨ f = OutFrame.chunk (terminalChunk sessA) ∨
        f = OutFrame.chunk (contentChunk sessA "<think>") ∨
        ∃ e ∈ [evDetail "deep", evFinished],
          f = OutFrame.chunk (contentChunk sessA e.agentStatus.metadata.reasoningDetail))
    ∧ (terminalChunk sessA).choices =
        [{ index := 0, delta := { role := "assistant", content := "" },
           finishReason := "stop" }] :=
  C9_unclosed_reasoning sessA false [] evThinking evFinished [evDetail "deep", evFinished]
    (by decide) (by decide) (by decide) (by decide)

/-- C6 counterexample: a `data: ` line whose payload is non-empty, not the
sentinel and undecodable does not make the run fail when it sits after the
terminal sentinel line — the parser stops at the sentinel with success and
the collector returns a completion, refuting the claim for arbitrary
placement of the failing line. -/
theorem C6_counterexample :
    CollectMonicaSSEToCompletion "m" "id" 0 decodeX
        (dataLine sseFinish.toList ++ dataLine ['Z']) =
      Except.ok
        { id := "chatcmpl-" ++ "id"
          object := "chat.completion"
          created := 0
          model := "m"
          choices := [{ index := 0,
                        message := { role := "assistant", content := "" },
                        finishReason := "stop" }]
          usage := { promptTokens := 0, completionTokens := 0, totalTokens := 0 } }
    ∧ decodeX ['Z'] = none
    ∧ goodPayload ['Z']
    ∧ dataLine ['Z'] = "data: Z\n".toList := by
  exact ⟨rfl, rfl, by decide, by decide⟩

/-- C6 (amended): when the undecodable `data: ` line is reached — i.e. it is
preceded only by lines the parser ignores (no `data: ` marker, or an empty
payload) or well-formed payload lines that decode successfully, with no
terminal sentinel before it — the run ends with a decode error whatever
bytes follow, and both the collector and the emitter surface exactly that
error; the collector's error result carries no aggregate at all (the
`Except.error` branch of `CollectMonicaSSEToCompletion` holds no
completion). -/
theorem C6_decode_failure (s : Session) (model chatId : String) (created : Int)
    (decode : List Char → Option SSEData) (pre : List PreLine)
    (bad tail : List Char)
    (hpre : ∀ e ∈ pre, goodPreLine decode e)
    (hbad : goodPayload bad) (hdec : decode bad = none) :
    CollectMonicaSSEToCompletion model chatId created decode
        ((pre.map lineOf).flatten ++ (dataLine bad ++ tail)) =
      Except.error ProcError.decodeError
    ∧ StreamMonicaSSEToClient s decode
        ((pre.map lineOf).flatten ++ (dataLine bad ++ tail)) =
      Except.error ProcError.decodeError := by
  constructor
  · rw [CollectMonicaSSEToCompletion,
      processSSEStream_badline_pre decode collectStep "" pre bad tail hpre hbad hdec]
  · rw [StreamMonicaSSEToClient,
      processSSEStream_badline_pre decode (emitStep s) (false, []) pre bad tail hpre hbad hdec]

theorem C6_witness :
    CollectMonicaSSEToCompletion "m" "id" 0 decodeX
        (([PreLine.junk "event: ping".toList, PreLine.payload [],
            PreLine.payload "X".toList].map lineOf).flatten ++
          (dataLine ['Z'] ++ "data: X\n".toList)) =
      Except.error ProcError.decodeError
    ∧ StreamMonicaSSEToClient sessA decodeX
        (([PreLine.junk "event: ping".toList, PreLine.payload [],
            PreLine.payload "X".toList].map lineOf).flatten ++
          (dataLine ['Z'] ++ "data: X\n".toList)) =
      Except.error ProcError.decodeError :=
  C6_decode_failure sessA "m" "id" 0 decodeX
    [PreLine.junk "event: ping".toList, PreLine.payload [], PreLine.payload "X".toList]
    ['Z'] "data: X\n".toList (by decide) (by decide) (by decide)

/-- C7 counterexample: the `Finished` branch of the emitter does not set
`SystemFingerprint`, so the terminal frame carries the empty string instead
of the session's fingerprint — refuting "every frame carries the session's
fingerprint" on the minimal well-formed stream with one finished event. -/
theorem C7_counterexample :
    StreamMonicaSSEToClient sessA decodeX (encodeStream ["F".toList]) =
      Except.ok [OutFrame.chunk (terminalChunk sessA), OutFrame.done]
    ∧ (terminalChunk sessA).systemFingerprint ≠ sessA.fingerprint := by
  exact ⟨rfl, by decide⟩

/-- C7 (amended): every chunk the emitter can return is either the terminal
chunk or a content chunk of the session; content chunks carry the session's
stream id (`"chatcmpl-" ++ chatId`), creation timestamp, model and
fingerprint, and the terminal chunk carries the same id, timestamp and model
but an empty fingerprint field. -/
theorem C7_frame_fields (s : Session) (decode : List Char → Option SSEData)
    (src : List Char) (frames : List OutFrame)
    (h : StreamMonicaSSEToClient s decode src = Except.ok frames) :
    (∀ f ∈ frames, chunkShape s f)
    ∧ (∀ c, (contentChunk s c).id = "chatcmpl-" ++ s.chatId ∧
        (contentChunk s c).object = sseObject ∧
        (contentChunk s c).created = s.now ∧
        (contentChunk s c).model = s.model ∧
        (contentChunk s c).systemFingerprint = s.fingerprint)
    ∧ (terminalChunk s).id = "chatcmpl-" ++ s.chatId
    ∧ (terminalChunk s).object = sseObject
    ∧ (terminalChunk s).created = s.now
    ∧ (terminalChunk s).model = s.model
    ∧ (terminalChunk s).systemFingerprint = "" := by
  refine ⟨?_, fun c => ⟨rfl, rfl, rfl, rfl, rfl⟩, rfl, rfl, rfl, rfl, rfl⟩
  rw [StreamMonicaSSEToClient] at h
  cases heq : processSSEStream noCancel decode (fun st d => Except.ok (emitStep s st d)) 0
      (false, ([] : List OutFrame)) src with
  | error e => rw [heq] at h; exact absurd h (by simp)
  | ok st =>
    rw [heq] at h
    injection h with h
    subst h
    exact processLines_emit_shape s decode (readLines src) 0 (false, []) (by simp) st heq

theorem C7_witness :
    (∀ f ∈ [OutFrame.chunk (contentChunk sessA "x")], chunkShape sessA f)
    ∧ (∀ c, (contentChunk sessA c).id = "chatcmpl-" ++ sessA.chatId ∧
        (contentChunk sessA c).object = sseObject ∧
        (contentChunk sessA c).created = sessA.now ∧
        (contentChunk sessA c).model = sessA.model ∧
        (contentChunk sessA c).systemFingerprint = sessA.fingerprint)
    ∧ (terminalChunk sessA).id = "chatcmpl-" ++ sessA.chatId
    ∧ (terminalChunk sessA).object = sseObject
    ∧ (terminalChunk sessA).created = sessA.now
    ∧ (terminalChunk sessA).model = sessA.model
    ∧ (terminalChunk sessA).systemFingerprint = "" :=
  C7_frame_fields sessA decodeX (encodeStream ["X".toList])
    [OutFrame.chunk (contentChunk sessA "x")] rfl

/-- C8: the registry contract.  On a hit `GetLimiter` returns the stored
limiter instance unchanged and only refreshes its `lastSeen` to the call
time, leaving the key set — and hence its uniqueness — intact; on a miss it
creates exactly one limiter carrying the registry's configured rate and burst
(a full token bucket) and appends the single new entry, preserving key
uniqueness; `NewRateLimiter rps` configures rate = burst = rps; the cleanup
sweep keeps exactly the entries with `now - lastSeen ≤ threshold` (removing
exactly the older ones) and preserves uniqueness; and a `GetLimiter` for a
key absent after the sweep creates a fresh limiter with a full burst
bucket. -/
theorem C8_registry (rps : Nat) (rl rl2 : RateLimiterSt) (k k2 : String)
    (entry : ClientEntry) (now now2 t : Nat)
    (ha : lookupClient rl.clients k = some entry)
    (hb : lookupClient rl2.clients k2 = none)
    (hu : (rl.clients.map Prod.fst).Nodup)
    (hu2 : (rl2.clients.map Prod.fst).Nodup) :
    (GetLimiter rl k now).2 = entry.limiter
    ∧ lookupClient (GetLimiter rl k now).1.clients k = some { entry with lastSeen := now }
    ∧ (GetLimiter rl k now).1.clients.map Prod.fst = rl.clients.map Prod.fst
    ∧ ((GetLimiter rl k now).1.clients.map Prod.fst).Nodup
    ∧ (GetLimiter rl2 k2 now2).2 =
        { limit := rl2.rate, burst := rl2.burst, tokens := rl2.burst, uid := rl2.nextUID }
    ∧ (GetLimiter rl2 k2 now2).1.clients =
        rl2.clients ++
          [(k2, ⟨⟨rl2.rate, rl2.burst, rl2.burst, rl2.nextUID⟩, now2⟩)]
    ∧ ((GetLimiter rl2 k2 now2).1.clients.map Prod.fst).Nodup
    ∧ (NewRateLimiter rps).rate = rps
    ∧ (NewRateLimiter rps).burst = rps
    ∧ (∀ e, e ∈ (cleanupInactiveClients rl now).clients ↔
        e ∈ rl.clients ∧ ¬ (now - e.2.lastSeen > inactivityThreshold))
    ∧ ((cleanupInactiveClients rl now).clients.map Prod.fst).Nodup
    ∧ (lookupClient (cleanupInactiveClients rl2 now2).clients k2 = none →
        (GetLimiter (cleanupInactiveClients rl2 now2) k2 t).2.tokens = rl2.burst) := by
  have hget : GetLimiter rl k now =
      ({ rl with clients := refreshClient rl.clients k now }, entry.limiter) := by
    rw [GetLimiter, ha]
  have hget2 : GetLimiter rl2 k2 now2 =
      ({ rl2 with
          clients := rl2.clients ++
            [(k2, ⟨⟨rl2.rate, rl2.burst, rl2.burst, rl2.nextUID⟩, now2⟩)]
          nextUID := rl2.nextUID + 1 },
        ⟨rl2.rate, rl2.burst, rl2.burst, rl2.nextUID⟩) := by
    rw [GetLimiter, hb]
  have hk2 : k2 ∉ rl2.clients.map Prod.fst := (lookupClient_none_iff _ _).mp hb
  refine ⟨?_, ?_, ?_, ?_, ?_, ?_, ?_, rfl, rfl, ?_, ?_, ?_⟩
  · rw [hget]
  · rw [hget]
    exact lookupClient_refresh_self rl.clients k now entry ha
  · rw [hget]
    exact refreshClient_keys rl.clients k now
  · rw [hget]
    simpa [refreshClient_keys rl.clients k now] using hu
  · rw [hget2]
  · rw [hget2]
  · rw [hget2]
    simp [List.nodup_append, hu2, hk2]
  · intro e
    simp [cleanupInactiveClients, List.mem_filter]
  · have hsub : ((rl.clients.filter
        (fun e => !(decide (now - e.2.lastSeen > inactivityThreshold)))).map
          Prod.fst).Sublist (rl.clients.map Prod.fst) :=
      (List.filter_sublist _).map _
    exact hsub.nodup hu
  · intro hnone
    rw [GetLimiter, hnone]
    rfl

/-- A registry with one known client, for the C8 witness. -/
def entryA : ClientEntry :=
  { limiter := { limit := 5, burst := 5, tokens := 3, uid := 0 }, lastSeen := 100 }

/-- A registry state holding `entryA`, for the C8 witness. -/
def rlA : RateLimiterSt :=
  { clients := [("9.9.9.9", entryA)], rate := 5, burst := 5, nextUID := 1 }

theorem C8_witness :
    (GetLimiter rlA "9.9.9.9" 1000).2 = entryA.limiter
    ∧ lookupClient (GetLimiter rlA "9.9.9.9" 1000).1.clients "9.9.9.9" =
        some { entryA with lastSeen := 1000 }
    ∧ (GetLimiter rlA "9.9.9.9" 1000).1.clients.map Prod.fst = rlA.clients.map Prod.fst
    ∧ ((GetLimiter rlA "9.9.9.9" 1000).1.clients.map Prod.fst).Nodup
    ∧ (GetLimiter (NewRateLimiter 5) "8.8.8.8" 7).2 =
        { limit := (NewRateLimiter 5).rate, burst := (NewRateLimiter 5).burst,
          tokens := (NewRateLimiter 5).burst, uid := (NewRateLimiter 5).nextUID }
    ∧ (GetLimiter (NewRateLimiter 5) "8.8.8.8" 7).1.clients =
        (NewRateLimiter 5).clients ++
          [("8.8.8.8", ⟨⟨(NewRateLimiter 5).rate, (NewRateLimiter 5).burst,
            (NewRateLimiter 5).burst, (NewRateLimiter 5).nextUID⟩, 7⟩)]
    ∧ ((GetLimiter (NewRateLimiter 5) "8.8.8.8" 7).1.clients.map Prod.fst).Nodup
    ∧ (NewRateLimiter 5).rate = 5
    ∧ (NewRateLimiter 5).burst = 5
    ∧ (∀ e, e ∈ (cleanupInactiveClients rlA 1000).clients ↔
        e ∈ rlA.clients ∧ ¬ (1000 - e.2.lastSeen > inactivityThreshold))
    ∧ ((cleanupInactiveClients rlA 1000).clients.map Prod.fst).Nodup
    ∧ (lookupClient (cleanupInactiveClients (NewRateLimiter 5) 7).clients "8.8.8.8" = none →
        (GetLimiter (cleanupInactiveClients (NewRateLimiter 5) 7) "8.8.8.8" 9).2.tokens =
          (NewRateLimiter 5).burst) :=
  C8_registry 5 rlA (NewRateLimiter 5) "9.9.9.9" "8.8.8.8" entryA 1000 7 9
    (by decide) (by decide) (by decide) (by decide)

end Monica
